import Mathlib

/-!
Verification of the textyle layout/rendering engine against its
natural-language specification.

The definitions below are a shallow embedding of the Rust sources:
  * `src/layout/geometry.rs`   — `Rect`, `Size`, `Matrix`
  * `src/continuous/layout/sizing.rs` — `Sizing`, `ItemSizing`
    (the discrete crate declares a `layout::sizing` module whose file is
    not present in the tree; per the spec the sizing algebra is shared
    between the near-duplicate copies, so the continuous copy is the
    source used here)
  * `src/canvas.rs`            — `TextCanvas` and its render arms
  * `src/rendering/mod.rs`     — the stack share-distribution pass
  * `src/layout/mod.rs`        — the `Layout` tree and `resolve_size`

Machine integers: Rust `usize` values are modelled as `Nat`.  Where the
source uses `checked_sub`/`saturating_sub` with a default of zero this is
Lean's truncated subtraction; where a plain `-` can panic on underflow the
operation is modelled as `Option`-valued (`checkedSub`), a `none` denoting
the Rust panic.  `checked_add` overflow is modelled against
`USIZE_MAX = 2^64 - 1`.  Casts `i64 as usize` are modelled by `usizeCast`
(reduction modulo `2^64`).
-/

namespace Textyle

/-- `usize::MAX` for the 64-bit targets the crate is built for. -/
def USIZE_MAX : Nat := 2 ^ 64 - 1

/-- `a.checked_sub(b)` on `usize`: `none` models the Rust panic of a plain
`-` that underflows. -/
def checkedSub (a b : Nat) : Option Nat :=
  if b ≤ a then some (a - b) else none

/-- `i64 as usize` (wrapping cast). -/
def usizeCast (i : Int) : Nat := (i % (2 ^ 64)).toNat

/-- `Rect` from `src/layout/geometry.rs`: origin is signed, extent unsigned. -/
structure Rect where
  x : Int
  y : Int
  width : Nat
  height : Nat
  deriving Repr, DecidableEq

/-- `Rect::max_x`. -/
def Rect.max_x (r : Rect) : Int := r.x + (r.width : Int)

/-- `Rect::max_y`. -/
def Rect.max_y (r : Rect) : Int := r.y + (r.height : Int)

/-- `Rect::sized`. -/
def Rect.sized (w h : Nat) : Rect := ⟨0, 0, w, h⟩

/-- `Size` from `src/layout/geometry.rs`. -/
structure Size where
  width : Nat
  height : Nat
  deriving Repr, DecidableEq

/-- `Rect::from_size`. -/
def Rect.from_size (s : Size) : Rect := ⟨0, 0, s.width, s.height⟩

/-- `Matrix` from `src/layout/geometry.rs`: `shape = (col_count, row_count)`,
row-major `data`. -/
structure Matrix (Item : Type) where
  shape : Nat × Nat
  data : List Item
  deriving Repr, DecidableEq

/-- `Matrix::with_rows`.  The Rust function asserts
`data.len() % row_count == 0` (and `% 0` panics); `none` models the panic. -/
def Matrix.with_rows {Item : Type} (data : List Item) (row_count : Nat) :
    Option (Matrix Item) :=
  if row_count ≠ 0 ∧ data.length % row_count = 0 then
    some ⟨(data.length / row_count, row_count), data⟩
  else
    none

/-- `Matrix::get`.  The source asserts `x < shape.0 && y < shape.1` and then
indexes `data[y * shape.1 + x]`; `none` models either panic (failed assert
or out-of-bounds index). -/
def Matrix.get {Item : Type} (m : Matrix Item) (x y : Nat) : Option Item :=
  if x < m.shape.1 ∧ y < m.shape.2 then
    m.data.get? (y * m.shape.2 + x)
  else
    none

/-- `Sizing` from `src/continuous/layout/sizing.rs`.  Modelled from the
spec where the discrete crate is concerned: the discrete `layout::sizing`
module file is absent from the tree, and the spec describes a single
Greedy/Static algebra shared by the near-duplicate copies, matching this
continuous source. -/
inductive Sizing : Type where
  | Greedy (min : Nat)
  | Static (exact : Nat)
  deriving Repr, DecidableEq

/-- `Sizing::min_content_size`. -/
def Sizing.min_content_size : Sizing → Nat
  | .Greedy n => n
  | .Static n => n

/-- `Sizing::clamped_add`: `*sz = sz.checked_add(n).unwrap_or(*sz)`. -/
def Sizing.clamped_add (s : Sizing) (n : Nat) : Sizing :=
  match s with
  | .Greedy sz => .Greedy (if sz + n ≤ USIZE_MAX then sz + n else sz)
  | .Static sz => .Static (if sz + n ≤ USIZE_MAX then sz + n else sz)

/-- `Sizing::clamped_accumulate`. -/
def Sizing.clamped_accumulate (s other : Sizing) : Sizing :=
  match s with
  | .Static n => other.clamped_add n
  | .Greedy n => .Greedy (n + other.min_content_size)

/-- `ItemSizing` from `src/continuous/layout/sizing.rs`. -/
structure ItemSizing where
  horizontal : Sizing
  vertical : Sizing
  deriving Repr, DecidableEq

/-- `ItemSizing::fit_into`. -/
def ItemSizing.fit_into (s : ItemSizing) (bounds : Rect) : Rect :=
  { x := bounds.x
    y := bounds.y
    width :=
      match s.horizontal with
      | .Greedy n => max bounds.width n
      | .Static n => n
    height :=
      match s.vertical with
      | .Greedy n => max bounds.height n
      | .Static n => n }

/-- C3: for every `ItemSizing` and every bounds rectangle, `fit_into`
resolves each axis independently: a `Static n` axis yields exactly `n`
regardless of the bound, and a `Greedy m` axis with bound `b` yields
`max b m`. -/
theorem c3_fit_into_axes (s : ItemSizing) (bounds : Rect) :
    (s.fit_into bounds).width =
      (match s.horizontal with
       | .Static n => n
       | .Greedy m => max bounds.width m) ∧
    (s.fit_into bounds).height =
      (match s.vertical with
       | .Static n => n
       | .Greedy m => max bounds.height m) := by
  obtain ⟨h, v⟩ := s
  cases h <;> cases v <;> exact ⟨rfl, rfl⟩

/-- C6 counterexample: `clamped_add` does not saturate at `usize::MAX` on
overflow — `checked_add(..).unwrap_or(*sz)` leaves the payload unchanged.
At payload `usize::MAX - 1` with `n = 2` the result keeps payload
`usize::MAX - 1`, not `usize::MAX` as the claim states. -/
theorem c6_clamped_add_counterexample :
    (Sizing.Static (USIZE_MAX - 1)).clamped_add 2 =
      Sizing.Static (USIZE_MAX - 1) ∧
    USIZE_MAX - 1 ≠ USIZE_MAX := by
  refine ⟨by decide, by decide⟩

/-- C6 (amended): `clamped_add` never panics; when `sz + n` fits in `usize`
the payload becomes exactly `sz + n`, and on overflow the payload is left
unchanged at `sz` (not saturated to `usize::MAX`); the variant is
preserved. -/
theorem c6_clamped_add_amended (s : Sizing) (n : Nat) :
    s.clamped_add n =
      (match s with
       | .Greedy sz => Sizing.Greedy (if sz + n ≤ USIZE_MAX then sz + n else sz)
       | .Static sz => Sizing.Static (if sz + n ≤ USIZE_MAX then sz + n else sz)) := by
  cases s <;> rfl

/-- C9: `Matrix::get` indexes `data[y * shape.1 + x]` — a `row_count`
stride — although `shape = (col_count, row_count)` stores row-major data
with a `col_count` stride.  For `with_rows([0,1,2,3,4,5], 3)` (2 columns ×
3 rows) the in-range access `get(1, 2)` computes index `2*3+1 = 7`, out of
bounds for the 6-element data (a panic), whereas the row-major element is
`data[2*2+1] = 5`. -/
theorem c9_matrix_get_wrong_stride :
    Matrix.with_rows [0, 1, 2, 3, 4, 5] 3 =
      some ⟨(2, 3), [0, 1, 2, 3, 4, 5]⟩ ∧
    (Matrix.mk (2, 3) [0, 1, 2, 3, 4, 5]).get 1 2 = none ∧
    [0, 1, 2, 3, 4, 5].get? (2 * 2 + 1) = some 5 := by
  refine ⟨by decide, by decide, by decide⟩

/-!
Greedy-space distribution performed by the stack arms of
`SizedLayout::resolve_draw_commands` (`src/rendering/mod.rs`, VerticalStack
lines 182–224 and HorizontalStack lines 276–316).  The pass only reads and
rewrites each child's primary-axis `Sizing`, so it is embedded as a
function on the list of those sizings.
-/

/-- The per-child share loop: for a `Static` child the sizing is kept; for
a `Greedy(tight)` child `greedy_space -= greedy_size` (a plain `-`,
modelled as `checkedSub`), the child receives `greedy_size`, absorbing the
whole remaining space when it dropped below `greedy_size`, clamped from
below by `tight`. -/
def distributeGreedy (greedySpace greedySize : Nat) :
    List Sizing → Option (List Sizing)
  | [] => some []
  | .Static sz :: rest =>
      (distributeGreedy greedySpace greedySize rest).map (Sizing.Static sz :: ·)
  | .Greedy tight :: rest =>
      (checkedSub greedySpace greedySize).bind fun gs =>
        if gs < greedySize then
          (distributeGreedy 0 greedySize rest).map
            (Sizing.Static (max (greedySize + gs) tight) :: ·)
        else
          (distributeGreedy gs greedySize rest).map
            (Sizing.Static (max greedySize tight) :: ·)

/-- Accumulated `static_height`/`static_width` of the stack arms: starts at
`spacing_sizing` and adds every `Static` child's extent. -/
def staticExtent (spacingSizing : Nat) (sizings : List Sizing) : Nat :=
  sizings.foldl
    (fun acc s => match s with | .Static n => acc + n | .Greedy _ => acc)
    spacingSizing

/-- `greedy_count` of the stack arms. -/
def greedyCount (sizings : List Sizing) : Nat :=
  sizings.foldl
    (fun acc s => match s with | .Static _ => acc | .Greedy _ => acc + 1) 0

/-- VerticalStack arm of `resolve_draw_commands`: the concrete primary-axis
sizings assigned to the children.  `bounds.height - static_height` is a
plain `-` in the source (`none` models its underflow panic). -/
def vstackNewSizings (spacing : Nat) (sizings : List Sizing)
    (boundsHeight : Nat) : Option (List Sizing) :=
  let spacingSizing := spacing * (sizings.length - 1)
  let staticHeight := staticExtent spacingSizing sizings
  (checkedSub boundsHeight staticHeight).bind fun greedySpace =>
    let gc := greedyCount sizings
    let greedySize := if gc ≠ 0 then greedySpace / gc else 0
    distributeGreedy greedySpace greedySize sizings

/-- HorizontalStack arm of `resolve_draw_commands`: identical to the
vertical arm except the initial subtraction is `saturating_sub`
(line 294). -/
def hstackNewSizings (spacing : Nat) (sizings : List Sizing)
    (boundsWidth : Nat) : Option (List Sizing) :=
  let spacingSizing := spacing * (sizings.length - 1)
  let staticWidth := staticExtent spacingSizing sizings
  let greedySpace := boundsWidth - staticWidth
  let gc := greedyCount sizings
  let greedySize := if gc ≠ 0 then greedySpace / gc else 0
  distributeGreedy greedySpace greedySize sizings

/-- The concrete shares named by the spec: the scalar of each computed
sizing. -/
def sharesOf (l : List Sizing) : List Nat := l.map Sizing.min_content_size

lemma staticExtent_replicate_greedy (init k : Nat) :
    staticExtent init (List.replicate k (Sizing.Greedy 0)) = init := by
  induction k generalizing init with
  | zero => rfl
  | succ k ih => simpa [staticExtent, List.replicate] using ih init

lemma greedyCount_aux_replicate (init k : Nat) :
    (List.replicate k (Sizing.Greedy 0)).foldl
      (fun acc s => match s with | .Static _ => acc | .Greedy _ => acc + 1)
      init = init + k := by
  induction k generalizing init with
  | zero => rfl
  | succ k ih =>
      simp only [List.replicate, List.foldl_cons]
      rw [ih (init + 1)]
      omega

lemma greedyCount_replicate (k : Nat) :
    greedyCount (List.replicate k (Sizing.Greedy 0)) = k := by
  simpa [greedyCount] using greedyCount_aux_replicate 0 k

/-- Closed form of the distribution loop on `m ≥ 1` zero-minimum greedy
children when the current space covers `m` floor shares: every child but
the last gets the floor share `s`; the last additionally absorbs the
remaining space exactly when that remainder dropped below `s`. -/
lemma distributeGreedy_replicate (s : Nat) :
    ∀ (m gs : Nat), 1 ≤ m → m * s ≤ gs →
    distributeGreedy gs s (List.replicate m (Sizing.Greedy 0)) =
      some (List.replicate (m - 1) (Sizing.Static s) ++
        [Sizing.Static (if gs - m * s < s then s + (gs - m * s) else s)]) := by
  intro m
  induction m with
  | zero => intro gs h; omega
  | succ m ih =>
      intro gs _ hle
      rw [List.replicate_succ]
      rcases Nat.eq_zero_or_pos m with hm | hm
      · subst hm
        have hs : s ≤ gs := by omega
        simp only [List.replicate_zero, distributeGreedy,
          show checkedSub gs s = some (gs - s) from if_pos hs,
          Option.some_bind]
        by_cases hlt : gs - s < s
        · rw [if_pos hlt, if_pos (by omega : gs - 1 * s < s)]
          simp only [distributeGreedy, Option.map_some', List.nil_append]
          congr 3
          omega
        · rw [if_neg hlt, if_neg (by omega : ¬ gs - 1 * s < s)]
          simp only [distributeGreedy, Option.map_some', List.nil_append]
          congr 3
          omega
      · have hms : m * s + s ≤ gs := by
          have h := hle
          rw [Nat.succ_mul] at h
          exact h
        have hsm : s ≤ m * s := Nat.le_mul_of_pos_left s hm
        have hs : s ≤ gs := by omega
        have hnot : ¬ gs - s < s := by omega
        simp only [distributeGreedy,
          show checkedSub gs s = some (gs - s) from if_pos hs,
          Option.some_bind]
        rw [if_neg hnot, ih (gs - s) hm (by simp [Nat.succ_mul] at hle; omega)]
        simp only [Option.map_some', Option.some.injEq]
        rw [show Nat.succ m - 1 = (m - 1) + 1 from by omega,
          List.replicate_succ, max_eq_left (Nat.zero_le s)]
        have h2 : gs - s - m * s = gs - Nat.succ m * s := by
          simp [Nat.succ_mul]; omega
        simp [h2]

/-- C1 counterexample: with 3 zero-minimum greedy children and no spacing,
budget `B = 11` produces shares `[3, 3, 5]` — the last child collects the
full remainder 2, so the shares do *not* differ pairwise by at most 1; and
budget `B = 5` produces shares `[1, 1, 1]` whose sum is 3, not `B`. -/
theorem c1_stack_shares_counterexample :
    vstackNewSizings 0 (List.replicate 3 (Sizing.Greedy 0)) 11 =
      some [Sizing.Static 3, Sizing.Static 3, Sizing.Static 5] ∧
    ¬ (∀ a ∈ sharesOf [Sizing.Static 3, Sizing.Static 3, Sizing.Static 5],
        ∀ b ∈ sharesOf [Sizing.Static 3, Sizing.Static 3, Sizing.Static 5],
        a - b ≤ 1) ∧
    vstackNewSizings 0 (List.replicate 3 (Sizing.Greedy 0)) 5 =
      some [Sizing.Static 1, Sizing.Static 1, Sizing.Static 1] ∧
    (sharesOf [Sizing.Static 1, Sizing.Static 1, Sizing.Static 1]).sum ≠ 5 := by
  refine ⟨by decide, by decide, by decide, by decide⟩

/-- C1 (amended): for `k ≥ 1` zero-minimum greedy children with no spacing
sharing budget `B`, both stack arms assign every child but the last the
floor share `B / k`, and the last child additionally absorbs the division
remainder `B % k` exactly when `B % k < B / k` (so the shares sum to `B`
iff `B % k = 0` or `B % k < B / k`; otherwise the remainder is dropped).
The concrete case `k = 3, B = 10` yields shares `[3, 3, 4]` (see the
witness). -/
theorem c1_stack_shares_amended (k B : Nat) (hk : 1 ≤ k) :
    vstackNewSizings 0 (List.replicate k (Sizing.Greedy 0)) B =
      some (List.replicate (k - 1) (Sizing.Static (B / k)) ++
        [Sizing.Static (if B % k < B / k then B / k + B % k else B / k)]) ∧
    hstackNewSizings 0 (List.replicate k (Sizing.Greedy 0)) B =
      some (List.replicate (k - 1) (Sizing.Static (B / k)) ++
        [Sizing.Static (if B % k < B / k then B / k + B % k else B / k)]) := by
  have hdm : k * (B / k) + B % k = B := Nat.div_add_mod B k
  have hmod : B - k * (B / k) = B % k := by omega
  have hdist := distributeGreedy_replicate (B / k) k B hk (by omega)
  rw [hmod] at hdist
  constructor
  · simp only [vstackNewSizings, List.length_replicate, Nat.mul_zero,
      Nat.zero_mul, staticExtent_replicate_greedy, greedyCount_replicate,
      checkedSub, Nat.zero_le, if_true, Nat.sub_zero, Option.some_bind]
    rw [if_pos (by omega : k ≠ 0)]
    exact hdist
  · simp only [hstackNewSizings, List.length_replicate, Nat.mul_zero,
      Nat.zero_mul, staticExtent_replicate_greedy, greedyCount_replicate,
      Nat.sub_zero]
    rw [if_pos (by omega : k ≠ 0)]
    exact hdist

/-- C1 amended-claim witness: 3 zero-minimum greedy children with budget
`B = 10` receive shares `[3, 3, 4]` in both stack arms. -/
theorem c1_stack_shares_amended_witness :
    (1 ≤ 3) ∧
    vstackNewSizings 0 (List.replicate 3 (Sizing.Greedy 0)) 10 =
      some [Sizing.Static 3, Sizing.Static 3, Sizing.Static 4] ∧
    hstackNewSizings 0 (List.replicate 3 (Sizing.Greedy 0)) 10 =
      some [Sizing.Static 3, Sizing.Static 3, Sizing.Static 4] := by
  have h := c1_stack_shares_amended 3 10 (by decide)
  refine ⟨by decide, ?_, ?_⟩
  · rw [h.1]; decide
  · rw [h.2]; decide


/-!
`TextCanvas` from `src/canvas.rs`: a `Size` plus a row-major `Vec` of
grapheme cells.  `contents[index]` accesses that would panic are modelled
by `List.get?`/`List.set` (which return `none`/no-op out of range); under
the length invariant proved below the in-range accesses of the source are
exactly the in-range accesses of the model.
-/

structure TextCanvas where
  size : Size
  contents : List String
  deriving Repr, DecidableEq

/-- `TextCanvas::create_in_bounds`. -/
def TextCanvas.create_in_bounds (size : Size) : TextCanvas :=
  ⟨size, List.replicate (size.width * size.height) " "⟩

/-- `TextCanvas::create`. -/
def TextCanvas.create (width height : Nat) : TextCanvas :=
  ⟨⟨width, height⟩, List.replicate (width * height) " "⟩

/-- `TextCanvas::get_at`. -/
def TextCanvas.get_at : TextCanvas → Nat → Nat → Option String
  | ⟨size, contents⟩, x, y =>
      if x ≥ size.width ∨ y ≥ size.height then none
      else contents.get? (y * size.width + x)

/-- `TextCanvas::write`. -/
def TextCanvas.write : TextCanvas → String → Nat → Nat → TextCanvas
  | ⟨size, contents⟩, g, x, y =>
      if x ≥ size.width ∨ y ≥ size.height then ⟨size, contents⟩
      else ⟨size, contents.set (y * size.width + x) g⟩

/-- The iteration sequence of a Rust `start..(start + len)` loop over
`i64`. -/
def intRange (start : Int) (len : Nat) : List Int :=
  (List.range len).map (fun i => start + Int.ofNat i)

/-- One cell of the `draw_rect` loop: `continue` outside the surface,
otherwise write the fill cell. -/
def TextCanvas.fillCell (g : String) (c2 : TextCanvas) (x y : Int) :
    TextCanvas :=
  if x < 0 ∨ x ≥ (c2.size.width : Int) ∨
     y < 0 ∨ y ≥ (c2.size.height : Int) then c2
  else c2.write g x.toNat y.toNat

/-- One column of the `draw_rect` loop:
`for y in bounds.y..(bounds.y + bounds.height)`. -/
def TextCanvas.fillCol (g : String) (by0 : Int) (bh : Nat)
    (c1 : TextCanvas) (x : Int) : TextCanvas :=
  (intRange by0 bh).foldl (fun c2 y => TextCanvas.fillCell g c2 x y) c1

/-- `TextCanvas::draw_rect`: iterates the bounds' columns then rows,
skipping coordinates outside the surface. -/
def TextCanvas.draw_rect (c : TextCanvas) (bounds : Rect) (g : String) :
    TextCanvas :=
  (intRange bounds.x bounds.width).foldl
    (TextCanvas.fillCol g bounds.y bounds.height) c

/-- One cell of the `paste_canvas` copy loop: read `other` at `(x, y)`
(`continue` on `None`) and write it at the bounds' offset. -/
def TextCanvas.pasteCell (other : TextCanvas) (bx' by' : Nat)
    (c2 : TextCanvas) (x y : Nat) : TextCanvas :=
  match other.get_at x y with
  | none => c2
  | some g => c2.write g (x + bx') (y + by')

/-- One column of the `paste_canvas` copy loop: `for y in 0..bounds.height`. -/
def TextCanvas.pasteCol (other : TextCanvas) (bx' by' bh : Nat)
    (c1 : TextCanvas) (x : Nat) : TextCanvas :=
  (List.range bh).foldl (fun c2 y => TextCanvas.pasteCell other bx' by' c2 x y) c1

/-- `TextCanvas::paste_canvas`: the two `assert_eq!` are modelled by
`none`; the copy writes `other`'s cell at the bounds' offset (an `i64 as
usize` cast). -/
def TextCanvas.paste_canvas (c other : TextCanvas) (bounds : Rect) :
    Option TextCanvas :=
  if other.size.width = bounds.width ∧ other.size.height = bounds.height then
    some ((List.range bounds.width).foldl
      (TextCanvas.pasteCol other (usizeCast bounds.x) (usizeCast bounds.y)
        bounds.height)
      c)
  else none

/-- `TextCanvas::clear_with`. -/
def TextCanvas.clear_with (c : TextCanvas) (g : String) : TextCanvas :=
  c.draw_rect (Rect.from_size c.size) g

/-- The representation invariant of a canvas: the cell vector exactly
fills the grid. -/
def TextCanvas.Inv (c : TextCanvas) : Prop :=
  c.contents.length = c.size.width * c.size.height

instance (c : TextCanvas) : Decidable c.Inv := by
  unfold TextCanvas.Inv; infer_instance

lemma TextCanvas.write_size (c : TextCanvas) (g : String) (x y : Nat) :
    (c.write g x y).size = c.size := by
  obtain ⟨s, l⟩ := c
  simp only [TextCanvas.write]
  split <;> rfl

lemma TextCanvas.write_length (c : TextCanvas) (g : String) (x y : Nat) :
    (c.write g x y).contents.length = c.contents.length := by
  obtain ⟨s, l⟩ := c
  simp only [TextCanvas.write]
  split
  · rfl
  · simp

/-- Row-major indices are injective over in-range columns. -/
lemma rowMajorIndex_inj {W x x' y y' : Nat} (hx : x < W) (hx' : x' < W)
    (h : y * W + x = y' * W + x') : x = x' ∧ y = y' := by
  have hW : 0 < W := Nat.lt_of_le_of_lt (Nat.zero_le x) hx
  have hx0 : (y * W + x) % W = x := by
    rw [Nat.add_comm, Nat.add_mul_mod_self_right]
    exact Nat.mod_eq_of_lt hx
  have hx0' : (y' * W + x') % W = x' := by
    rw [Nat.add_comm, Nat.add_mul_mod_self_right]
    exact Nat.mod_eq_of_lt hx'
  have hxx : x = x' := by rw [← hx0, ← hx0', h]
  refine ⟨hxx, ?_⟩
  have hmul : y * W = y' * W := by omega
  exact Nat.eq_of_mul_eq_mul_right hW hmul

/-- The row-major index of an in-bounds coordinate is inside the cell
vector. -/
lemma TextCanvas.index_lt (c : TextCanvas) {x y : Nat} (hInv : c.Inv)
    (hx : x < c.size.width) (hy : y < c.size.height) :
    y * c.size.width + x < c.contents.length := by
  rw [hInv]
  calc y * c.size.width + x < y * c.size.width + c.size.width := by omega
  _ = (y + 1) * c.size.width := by ring
  _ ≤ c.size.height * c.size.width := Nat.mul_le_mul_right _ (by omega)
  _ = c.size.width * c.size.height := Nat.mul_comm _ _

lemma TextCanvas.get_at_write_self (c : TextCanvas) (g : String) (x y : Nat)
    (hInv : c.Inv) (hx : x < c.size.width) (hy : y < c.size.height) :
    (c.write g x y).get_at x y = some g := by
  have hidx := c.index_lt hInv hx hy
  obtain ⟨s, l⟩ := c
  simp only [TextCanvas.write]
  rw [if_neg (by simp at hx hy ⊢; omega)]
  simp only [TextCanvas.get_at]
  rw [if_neg (by simp at hx hy ⊢; omega)]
  exact List.get?_set_eq_of_lt g (by simpa using hidx)

lemma TextCanvas.get_at_write_ne (c : TextCanvas) (g : String)
    (x' y' x y : Nat) (h : (x', y') ≠ (x, y)) :
    (c.write g x' y').get_at x y = c.get_at x y := by
  obtain ⟨s, l⟩ := c
  simp only [TextCanvas.write]
  split
  · rfl
  · rename_i hin
    push_neg at hin
    simp only [TextCanvas.get_at]
    split
    · rfl
    · rename_i hget
      push_neg at hget
      apply List.get?_set_ne
      intro heq
      rcases rowMajorIndex_inj hin.1 hget.1 heq with ⟨hx, hy⟩
      exact h (by simp [hx, hy])

/-- A left fold whose step preserves a canvas's size and cell count
preserves them overall. -/
lemma foldl_size_length {α : Type} (f : TextCanvas → α → TextCanvas)
    (hf : ∀ b a, (f b a).size = b.size ∧
      (f b a).contents.length = b.contents.length) :
    ∀ (l : List α) (b : TextCanvas),
      (l.foldl f b).size = b.size ∧
      (l.foldl f b).contents.length = b.contents.length := by
  intro l
  induction l with
  | nil => exact fun b => ⟨rfl, rfl⟩
  | cons hd tl ih =>
      intro b
      obtain ⟨h1, h2⟩ := hf b hd
      obtain ⟨h3, h4⟩ := ih (f b hd)
      exact ⟨h3.trans h1, h4.trans h2⟩

lemma TextCanvas.draw_rect_size_length (c : TextCanvas) (bounds : Rect)
    (g : String) :
    (c.draw_rect bounds g).size = c.size ∧
    (c.draw_rect bounds g).contents.length = c.contents.length := by
  unfold TextCanvas.draw_rect
  apply foldl_size_length
  intro b a
  unfold TextCanvas.fillCol
  apply foldl_size_length
  intro b' a'
  unfold TextCanvas.fillCell
  split
  · exact ⟨rfl, rfl⟩
  · exact ⟨TextCanvas.write_size b' g _ _, TextCanvas.write_length b' g _ _⟩

lemma TextCanvas.paste_canvas_size_length (c other : TextCanvas)
    (bounds : Rect) (c' : TextCanvas)
    (h : c.paste_canvas other bounds = some c') :
    c'.size = c.size ∧ c'.contents.length = c.contents.length := by
  unfold TextCanvas.paste_canvas at h
  split at h
  · rw [Option.some.injEq] at h
    subst h
    apply foldl_size_length
    intro b a
    unfold TextCanvas.pasteCol
    apply foldl_size_length
    intro b' a'
    unfold TextCanvas.pasteCell
    split
    · exact ⟨rfl, rfl⟩
    · exact ⟨TextCanvas.write_size b' _ _ _, TextCanvas.write_length b' _ _ _⟩
  · exact absurd h (by simp)

/-- C10: `create`/`create_in_bounds` allocate exactly `width * height`
cells; `write`, `draw_rect`, `paste_canvas` (when it succeeds) and
`clear_with` preserve the size and the cell-vector length; consequently,
under that invariant every in-bounds coordinate indexes inside the vector
(so `write` and `get_at` cannot panic), `get_at` is `some`, and `get_at`
after `write` at the same coordinate returns the written cell. -/
theorem c10_canvas_invariants :
    (∀ w h, (TextCanvas.create w h).size = ⟨w, h⟩ ∧
      (TextCanvas.create w h).contents.length = w * h) ∧
    (∀ s, (TextCanvas.create_in_bounds s).size = s ∧
      (TextCanvas.create_in_bounds s).contents.length =
        s.width * s.height) ∧
    (∀ (c : TextCanvas) g x y, (c.write g x y).size = c.size ∧
      (c.write g x y).contents.length = c.contents.length) ∧
    (∀ (c : TextCanvas) bounds g, (c.draw_rect bounds g).size = c.size ∧
      (c.draw_rect bounds g).contents.length = c.contents.length) ∧
    (∀ (c other : TextCanvas) bounds c',
      c.paste_canvas other bounds = some c' →
      c'.size = c.size ∧ c'.contents.length = c.contents.length) ∧
    (∀ (c : TextCanvas) g, (c.clear_with g).size = c.size ∧
      (c.clear_with g).contents.length = c.contents.length) ∧
    (∀ (c : TextCanvas) x y, c.Inv → x < c.size.width →
      y < c.size.height →
      y * c.size.width + x < c.contents.length ∧
      (∃ g, c.get_at x y = some g) ∧
      (∀ g, (c.write g x y).get_at x y = some g)) := by
  refine ⟨fun w h => ⟨rfl, by simp [TextCanvas.create]⟩,
    fun s => ⟨rfl, by simp [TextCanvas.create_in_bounds]⟩,
    fun c g x y => ⟨c.write_size g x y, c.write_length g x y⟩,
    fun c bounds g => c.draw_rect_size_length bounds g,
    fun c other bounds c' h => c.paste_canvas_size_length other bounds c' h,
    fun c g => c.draw_rect_size_length _ g,
    fun c x y hInv hx hy => ?_⟩
  have hidx := c.index_lt hInv hx hy
  refine ⟨hidx, ?_, fun g => c.get_at_write_self g x y hInv hx hy⟩
  obtain ⟨s, l⟩ := c
  simp only [TextCanvas.get_at]
  rw [if_neg (by simp at hx hy ⊢; omega)]
  cases hh : l.get? (y * s.width + x) with
  | some g => exact ⟨g, rfl⟩
  | none =>
      rw [List.get?_eq_none] at hh
      simp at hidx
      omega

/-- C10 witness: on the concrete 2×2 canvas, the coordinate (1,1) indexes
inside the vector and `write` then `get_at` round-trips. -/
theorem c10_canvas_invariants_witness :
    1 * 2 + 1 < (TextCanvas.create 2 2).contents.length ∧
    (∃ g, (TextCanvas.create 2 2).get_at 1 1 = some g) ∧
    ((TextCanvas.create 2 2).write "x" 1 1).get_at 1 1 = some "x" := by
  have h := c10_canvas_invariants.2.2.2.2.2.2 (TextCanvas.create 2 2) 1 1
    (by decide) (by decide) (by decide)
  exact ⟨h.1, h.2.1, h.2.2 "x"⟩


lemma foldl_range_succ {β : Type} (f : β → Nat → β) (b : β) (n : Nat) :
    (List.range (n + 1)).foldl f b = f ((List.range n).foldl f b) n := by
  rw [List.range_succ, List.foldl_append]
  rfl

lemma TextCanvas.pasteCell_foreign (other : TextCanvas) (bx' by' : Nat)
    (c : TextCanvas) (x y px py : Nat)
    (hne : (x + bx', y + by') ≠ (px, py)) :
    (TextCanvas.pasteCell other bx' by' c x y).get_at px py =
      c.get_at px py := by
  unfold TextCanvas.pasteCell
  cases other.get_at x y with
  | none => rfl
  | some g => exact c.get_at_write_ne g _ _ px py hne

lemma TextCanvas.pasteCol_foreign (other : TextCanvas) (bx' by' : Nat)
    (x px py : Nat) :
    ∀ (bh : Nat) (c : TextCanvas),
    (∀ y, y < bh → (x + bx', y + by') ≠ (px, py)) →
    (TextCanvas.pasteCol other bx' by' bh c x).get_at px py =
      c.get_at px py := by
  intro bh
  induction bh with
  | zero => intro c _; rfl
  | succ n ih =>
      intro c hne
      unfold TextCanvas.pasteCol
      rw [foldl_range_succ]
      rw [TextCanvas.pasteCell_foreign other bx' by' _ x n px py
        (hne n (Nat.lt_succ_self n))]
      exact ih c (fun y hy => hne y (Nat.lt_succ_of_lt hy))

lemma TextCanvas.pasteCol_size_length (other : TextCanvas)
    (bx' by' bh : Nat) (c : TextCanvas) (x : Nat) :
    (TextCanvas.pasteCol other bx' by' bh c x).size = c.size ∧
    (TextCanvas.pasteCol other bx' by' bh c x).contents.length =
      c.contents.length := by
  unfold TextCanvas.pasteCol
  apply foldl_size_length
  intro b a
  unfold TextCanvas.pasteCell
  split
  · exact ⟨rfl, rfl⟩
  · exact ⟨TextCanvas.write_size b _ _ _, TextCanvas.write_length b _ _ _⟩

lemma TextCanvas.pasteCol_sets (other : TextCanvas) (bx' by' : Nat)
    (sx sy : Nat) (gval : String)
    (hg : other.get_at sx sy = some gval) :
    ∀ (bh : Nat) (c : TextCanvas), sy < bh → c.Inv →
    sx + bx' < c.size.width → sy + by' < c.size.height →
    (TextCanvas.pasteCol other bx' by' bh c sx).get_at
      (sx + bx') (sy + by') = some gval := by
  intro bh
  induction bh with
  | zero => intro c h; omega
  | succ n ih =>
      intro c hsy hInv htx hty
      unfold TextCanvas.pasteCol
      rw [foldl_range_succ]
      rcases Nat.lt_or_ge sy n with hlt | hge
      · rw [show (List.range n).foldl
            (fun c2 y => TextCanvas.pasteCell other bx' by' c2 sx y) c =
            TextCanvas.pasteCol other bx' by' n c sx from rfl]
        rw [TextCanvas.pasteCell_foreign other bx' by' _ sx n _ _
          (by intro hpair; rw [Prod.mk.injEq] at hpair; omega)]
        exact ih c hlt hInv htx hty
      · have hsyn : sy = n := by omega
        subst hsyn
        rw [show (List.range sy).foldl
            (fun c2 y => TextCanvas.pasteCell other bx' by' c2 sx y) c =
            TextCanvas.pasteCol other bx' by' sy c sx from rfl]
        obtain ⟨hsz, hlen⟩ := TextCanvas.pasteCol_size_length other bx' by' sy c sx
        unfold TextCanvas.pasteCell
        rw [hg]
        apply TextCanvas.get_at_write_self
        · unfold TextCanvas.Inv
          rw [hsz, hlen]
          exact hInv
        · rw [hsz]; exact htx
        · rw [hsz]; exact hty

lemma TextCanvas.pasteFold_sets (other : TextCanvas) (bx' by' bh : Nat)
    (sx sy : Nat) (gval : String)
    (hg : other.get_at sx sy = some gval) (hsy : sy < bh) :
    ∀ (bw : Nat) (c : TextCanvas), sx < bw → c.Inv →
    sx + bx' < c.size.width → sy + by' < c.size.height →
    ((List.range bw).foldl (TextCanvas.pasteCol other bx' by' bh) c).get_at
      (sx + bx') (sy + by') = some gval := by
  intro bw
  induction bw with
  | zero => intro c h; omega
  | succ n ih =>
      intro c hsx hInv htx hty
      rw [foldl_range_succ]
      rcases Nat.lt_or_ge sx n with hlt | hge
      · rw [TextCanvas.pasteCol_foreign other bx' by' n (sx + bx')
          (sy + by') bh _
          (fun y _ => by intro hpair; rw [Prod.mk.injEq] at hpair; omega)]
        exact ih c hlt hInv htx hty
      · have hsxn : sx = n := by omega
        subst hsxn
        obtain ⟨hsz, hlen⟩ := foldl_size_length
          (TextCanvas.pasteCol other bx' by' bh)
          (fun b a => TextCanvas.pasteCol_size_length other bx' by' bh b a)
          (List.range sx) c
        apply TextCanvas.pasteCol_sets other bx' by' sx sy gval hg bh _ hsy
        · unfold TextCanvas.Inv
          rw [hsz, hlen]
          exact hInv
        · rw [hsz]; exact htx
        · rw [hsz]; exact hty

lemma TextCanvas.pasteFold_outside (other : TextCanvas)
    (bx' by' bh bw : Nat) (px py : Nat)
    (hout : ¬ (bx' ≤ px ∧ px < bx' + bw ∧ by' ≤ py ∧ py < by' + bh)) :
    ∀ (n : Nat) (c : TextCanvas), n ≤ bw →
    ((List.range n).foldl (TextCanvas.pasteCol other bx' by' bh) c).get_at
      px py = c.get_at px py := by
  intro n
  induction n with
  | zero => intro c _; rfl
  | succ n ih =>
      intro c hn
      rw [foldl_range_succ]
      rw [TextCanvas.pasteCol_foreign other bx' by' n px py bh _
        (fun y hy => by intro hpair; rw [Prod.mk.injEq] at hpair; omega)]
      exact ih c (by omega)

/-- C8: `paste_canvas` rejects a source whose size differs from the bounds
(the `assert_eq!` fires before any cell is written, so the destination is
never partially updated); when the sizes agree, every source cell lands in
the destination at the bounds' offset — cells whose target lies inside the
destination read back exactly the source cell, and every destination cell
outside the pasted rectangle is untouched (the copy is clipped, not
wrapped).  The two `USIZE_MAX` hypotheses state that the offset rectangle
stays inside `usize`, which makes the `Nat` model of `x + bounds.x as
usize` exact. -/
theorem c8_paste_canvas_contract (dest other : TextCanvas) (bounds : Rect) :
    (¬ (other.size.width = bounds.width ∧
        other.size.height = bounds.height) →
      dest.paste_canvas other bounds = none) ∧
    (∀ result, dest.paste_canvas other bounds = some result →
      dest.Inv → other.Inv →
      usizeCast bounds.x + bounds.width ≤ USIZE_MAX →
      usizeCast bounds.y + bounds.height ≤ USIZE_MAX →
      (∀ sx sy, sx < bounds.width → sy < bounds.height →
        sx + usizeCast bounds.x < dest.size.width →
        sy + usizeCast bounds.y < dest.size.height →
        result.get_at (sx + usizeCast bounds.x) (sy + usizeCast bounds.y) =
          other.get_at sx sy) ∧
      (∀ px py,
        ¬ (usizeCast bounds.x ≤ px ∧ px < usizeCast bounds.x + bounds.width ∧
           usizeCast bounds.y ≤ py ∧
           py < usizeCast bounds.y + bounds.height) →
        result.get_at px py = dest.get_at px py)) := by
  constructor
  · intro hne
    unfold TextCanvas.paste_canvas
    exact if_neg hne
  · intro result hres hInvD hInvO _ _
    unfold TextCanvas.paste_canvas at hres
    split at hres
    · rename_i hsz
      rw [Option.some.injEq] at hres
      subst hres
      constructor
      · intro sx sy hsx hsy htx hty
        have hg : ∃ g, other.get_at sx sy = some g := by
          obtain ⟨s, l⟩ := other
          simp only [TextCanvas.get_at]
          simp only [TextCanvas.Inv] at hInvO
          simp at hsz hInvO
          rw [if_neg (by omega)]
          cases hh : l.get? (sy * s.width + sx) with
          | some g => exact ⟨g, rfl⟩
          | none =>
              rw [List.get?_eq_none] at hh
              have : sy * s.width + sx < s.width * s.height := by
                calc sy * s.width + sx < sy * s.width + s.width := by omega
                _ = (sy + 1) * s.width := by ring
                _ ≤ s.height * s.width := Nat.mul_le_mul_right _ (by omega)
                _ = s.width * s.height := Nat.mul_comm _ _
              omega
        obtain ⟨g, hg⟩ := hg
        rw [hg]
        exact TextCanvas.pasteFold_sets other _ _ bounds.height sx sy g hg
          hsy bounds.width dest hsx hInvD htx hty
      · intro px py hout
        exact TextCanvas.pasteFold_outside other _ _ bounds.height
          bounds.width px py hout bounds.width dest (Nat.le_refl _)
    · exact absurd hres (by simp)

/-- C8 witness: pasting a 2×1 source at offset (1, 0) into a 3×1
destination copies the source cell and rejects a mismatched bounds. -/
theorem c8_paste_canvas_contract_witness :
    (TextCanvas.create 3 1).paste_canvas (TextCanvas.create 2 1)
      ⟨1, 0, 3, 1⟩ = none ∧
    ∀ result,
      (TextCanvas.create 3 1).paste_canvas
        ((TextCanvas.create 2 1).write "z" 0 0) ⟨1, 0, 2, 1⟩ = some result →
      result.get_at (0 + usizeCast 1) (0 + usizeCast 0) =
        ((TextCanvas.create 2 1).write "z" 0 0).get_at 0 0 := by
  constructor
  · exact (c8_paste_canvas_contract (TextCanvas.create 3 1)
      (TextCanvas.create 2 1) ⟨1, 0, 3, 1⟩).1 (by decide)
  · intro result hres
    exact (((c8_paste_canvas_contract (TextCanvas.create 3 1)
      ((TextCanvas.create 2 1).write "z" 0 0) ⟨1, 0, 2, 1⟩).2 result hres
      (by decide) (by decide) (by decide) (by decide)).1) 0 0
      (by decide) (by decide) (by decide) (by decide)


/-!
The Text arm of `TextCanvas::render` (`src/canvas.rs` lines 91–112) and the
Background arm (lines 201–209).  The text content is modelled already split
into grapheme clusters (unicode segmentation is an external crate); the
cursor state machine is transcribed verbatim.
-/

/-- Text render loop: `"\n"` moves to the next line, `" "` advances
without writing, any other grapheme is written; after advancing, the
cursor wraps past the frame width. -/
def TextCanvas.renderTextLoop (bx width : Nat) :
    TextCanvas → Nat → Nat → List String → TextCanvas
  | c, _, _, [] => c
  | c, x, y, g :: rest =>
      if g = "\n" then TextCanvas.renderTextLoop bx width c bx (y + 1) rest
      else
        if x + 1 - bx ≥ width then
          TextCanvas.renderTextLoop bx width
            (if g = " " then c else c.write g x y) bx (y + 1) rest
        else
          TextCanvas.renderTextLoop bx width
            (if g = " " then c else c.write g x y) (x + 1) y rest

/-- Text arm entry: the cursor starts at the frame origin
(`bounds.x as usize`, `bounds.y as usize`). -/
def TextCanvas.renderTextArm (c : TextCanvas) (content : List String)
    (bounds : Rect) : TextCanvas :=
  TextCanvas.renderTextLoop (usizeCast bounds.x) bounds.width c
    (usizeCast bounds.x) (usizeCast bounds.y) content

/-- The cursor position at which the text loop handles each non-newline
grapheme. -/
def textTrace (bx width : Nat) :
    Nat → Nat → List String → List (String × Nat × Nat)
  | _, _, [] => []
  | x, y, g :: rest =>
      if g = "\n" then textTrace bx width bx (y + 1) rest
      else
        (g, x, y) ::
          (if x + 1 - bx ≥ width then textTrace bx width bx (y + 1) rest
           else textTrace bx width (x + 1) y rest)

/-- Background arm specialised to a `Text` child: fill the outer bounds
with the background cell, then render the text into the child frame
(`fit_into` re-anchored at the bounds' origin). -/
def TextCanvas.renderBackgroundText (c : TextCanvas) (bounds : Rect)
    (bg : String) (childSizing : ItemSizing) (content : List String) :
    TextCanvas :=
  (c.draw_rect bounds bg).renderTextArm content
    { childSizing.fit_into bounds with x := bounds.x, y := bounds.y }

lemma TextCanvas.renderTextLoop_size_length (bx width : Nat) :
    ∀ (gs : List String) (c : TextCanvas) (x y : Nat),
    (TextCanvas.renderTextLoop bx width c x y gs).size = c.size ∧
    (TextCanvas.renderTextLoop bx width c x y gs).contents.length =
      c.contents.length := by
  intro gs
  induction gs with
  | nil => intro c x y; exact ⟨rfl, rfl⟩
  | cons g rest ih =>
      intro c x y
      unfold TextCanvas.renderTextLoop
      by_cases hnl : g = "\n"
      · rw [if_pos hnl]; exact ih c bx (y + 1)
      · rw [if_neg hnl]
        by_cases hwrap : x + 1 - bx ≥ width
        · rw [if_pos hwrap]
          by_cases hsp : g = " "
          · rw [if_pos hsp]
            exact ih c bx (y + 1)
          · rw [if_neg hsp]
            obtain ⟨h1, h2⟩ := ih (c.write g x y) bx (y + 1)
            exact ⟨h1.trans (c.write_size g x y),
              h2.trans (c.write_length g x y)⟩
        · rw [if_neg hwrap]
          by_cases hsp : g = " "
          · rw [if_pos hsp]
            exact ih c (x + 1) y
          · rw [if_neg hsp]
            obtain ⟨h1, h2⟩ := ih (c.write g x y) (x + 1) y
            exact ⟨h1.trans (c.write_size g x y),
              h2.trans (c.write_length g x y)⟩

/-- Cells lexicographically before the cursor are never touched by the
rest of the text loop: the cursor position only grows in (row, column)
order. -/
lemma TextCanvas.renderTextLoop_earlier (bx width : Nat) :
    ∀ (gs : List String) (c : TextCanvas) (x y px py : Nat),
    (py < y ∨ (py = y ∧ px < x)) →
    (TextCanvas.renderTextLoop bx width c x y gs).get_at px py =
      c.get_at px py := by
  intro gs
  induction gs with
  | nil => intro c x y px py _; rfl
  | cons g rest ih =>
      intro c x y px py hlex
      unfold TextCanvas.renderTextLoop
      by_cases hnl : g = "\n"
      · rw [if_pos hnl]
        exact ih c bx (y + 1) px py (by omega)
      · rw [if_neg hnl]
        have hc' : (if g = " " then c else c.write g x y).get_at px py =
            c.get_at px py := by
          by_cases hsp : g = " "
          · rw [if_pos hsp]
          · rw [if_neg hsp]
            exact c.get_at_write_ne g x y px py
              (by intro hpair; rw [Prod.mk.injEq] at hpair; omega)
        by_cases hwrap : x + 1 - bx ≥ width
        · rw [if_pos hwrap]
          rw [ih _ bx (y + 1) px py (by omega)]
          exact hc'
        · rw [if_neg hwrap]
          rw [ih _ (x + 1) y px py (by omega)]
          exact hc'

/-- Every trace entry sits at or after the current cursor in (row, column)
order. -/
lemma textTrace_lex (bx width : Nat) :
    ∀ (gs : List String) (x y : Nat) (g : String) (px py : Nat),
    (g, px, py) ∈ textTrace bx width x y gs →
    (y < py ∨ (y = py ∧ x ≤ px)) := by
  intro gs
  induction gs with
  | nil => intro x y g px py h; simp [textTrace] at h
  | cons g0 rest ih =>
      intro x y g px py h
      unfold textTrace at h
      by_cases hnl : g0 = "\n"
      · rw [if_pos hnl] at h
        have := ih bx (y + 1) g px py h
        omega
      · rw [if_neg hnl] at h
        rcases List.mem_cons.mp h with heq | htail
        · rw [Prod.mk.injEq, Prod.mk.injEq] at heq
          omega
        · by_cases hwrap : x + 1 - bx ≥ width
          · rw [if_pos hwrap] at htail
            have := ih bx (y + 1) g px py htail
            omega
          · rw [if_neg hwrap] at htail
            have := ih (x + 1) y g px py htail
            omega

/-- Main text-arm lemma: at each traced position, a space grapheme leaves
the cell unchanged while any other grapheme ends up written there. -/
lemma TextCanvas.renderTextLoop_trace (bx width : Nat) :
    ∀ (gs : List String) (c : TextCanvas) (x y : Nat) (g : String)
      (px py : Nat),
    (g, px, py) ∈ textTrace bx width x y gs →
    c.Inv → px < c.size.width → py < c.size.height →
    ((g = " " →
      (TextCanvas.renderTextLoop bx width c x y gs).get_at px py =
        c.get_at px py) ∧
     (g ≠ " " →
      (TextCanvas.renderTextLoop bx width c x y gs).get_at px py =
        some g)) := by
  intro gs
  induction gs with
  | nil => intro c x y g px py h; simp [textTrace] at h
  | cons g0 rest ih =>
      intro c x y g px py h hInv hpx hpy
      unfold textTrace at h
      unfold TextCanvas.renderTextLoop
      by_cases hnl : g0 = "\n"
      · rw [if_pos hnl] at h
        rw [if_pos hnl]
        exact ih c bx (y + 1) g px py h hInv hpx hpy
      · rw [if_neg hnl] at h
        rw [if_neg hnl]
        rcases List.mem_cons.mp h with heq | htail
        · -- the entry is the head: the cursor is exactly at (px, py)
          rw [Prod.mk.injEq, Prod.mk.injEq] at heq
          obtain ⟨hg, hx, hy⟩ := heq
          rw [← hg, ← hx, ← hy]
          clear hg hx hy
          have hlater : ∀ (c1 : TextCanvas),
              (if px + 1 - bx ≥ width then
                TextCanvas.renderTextLoop bx width c1 bx (py + 1) rest
               else
                TextCanvas.renderTextLoop bx width c1 (px + 1) py rest).get_at
                px py = c1.get_at px py := by
            intro c1
            by_cases hwrap : px + 1 - bx ≥ width
            · rw [if_pos hwrap]
              exact TextCanvas.renderTextLoop_earlier bx width rest c1 bx
                (py + 1) px py (by omega)
            · rw [if_neg hwrap]
              exact TextCanvas.renderTextLoop_earlier bx width rest c1
                (px + 1) py px py (by omega)
          constructor
          · intro hsp
            subst hsp
            by_cases hwrap : px + 1 - bx ≥ width
            · rw [if_pos hwrap, if_pos rfl]
              have := hlater c
              rw [if_pos hwrap] at this
              exact this
            · rw [if_neg hwrap, if_pos rfl]
              have := hlater c
              rw [if_neg hwrap] at this
              exact this
          · intro hsp
            by_cases hwrap : px + 1 - bx ≥ width
            · rw [if_pos hwrap, if_neg hsp]
              have := hlater (c.write g px py)
              rw [if_pos hwrap] at this
              rw [this]
              exact c.get_at_write_self g px py hInv hpx hpy
            · rw [if_neg hwrap, if_neg hsp]
              have := hlater (c.write g px py)
              rw [if_neg hwrap] at this
              rw [this]
              exact c.get_at_write_self g px py hInv hpx hpy
        · -- the entry is in the tail: the head's write is at an earlier
          -- cursor position, which differs from (px, py)
          have hc'inv : ∀ (hsp : Prop), (if g0 = " " then c else c.write g0 x y).Inv ∧
              (if g0 = " " then c else c.write g0 x y).size = c.size := by
            intro _
            by_cases hsp0 : g0 = " "
            · rw [if_pos hsp0]; exact ⟨hInv, rfl⟩
            · rw [if_neg hsp0]
              refine ⟨?_, c.write_size g0 x y⟩
              unfold TextCanvas.Inv
              rw [c.write_size g0 x y, c.write_length g0 x y]
              exact hInv
          obtain ⟨hc'i, hc's⟩ := hc'inv True
          have hcells : (if g0 = " " then c else c.write g0 x y).get_at px py =
              c.get_at px py := by
            by_cases hsp0 : g0 = " "
            · rw [if_pos hsp0]
            · rw [if_neg hsp0]
              apply c.get_at_write_ne
              by_cases hwrap : x + 1 - bx ≥ width
              · rw [if_pos hwrap] at htail
                have := textTrace_lex bx width rest bx (y + 1) g px py htail
                intro hpair; rw [Prod.mk.injEq] at hpair; omega
              · rw [if_neg hwrap] at htail
                have := textTrace_lex bx width rest (x + 1) y g px py htail
                intro hpair; rw [Prod.mk.injEq] at hpair; omega
          by_cases hwrap : x + 1 - bx ≥ width
          · rw [if_pos hwrap] at htail
            rw [if_pos hwrap]
            have hres := ih _ bx (y + 1) g px py htail hc'i
              (hc's ▸ hpx) (hc's ▸ hpy)
            exact ⟨fun hsp => (hres.1 hsp).trans hcells, hres.2⟩
          · rw [if_neg hwrap] at htail
            rw [if_neg hwrap]
            have hres := ih _ (x + 1) y g px py htail hc'i
              (hc's ▸ hpx) (hc's ▸ hpy)
            exact ⟨fun hsp => (hres.1 hsp).trans hcells, hres.2⟩


lemma intRange_succ (s : Int) (n : Nat) :
    intRange s (n + 1) = intRange s n ++ [s + n] := by
  unfold intRange
  rw [List.range_succ, List.map_append]
  rfl

lemma TextCanvas.fillCell_size_length (g : String) (c : TextCanvas)
    (x y : Int) :
    (TextCanvas.fillCell g c x y).size = c.size ∧
    (TextCanvas.fillCell g c x y).contents.length = c.contents.length := by
  unfold TextCanvas.fillCell
  split
  · exact ⟨rfl, rfl⟩
  · exact ⟨c.write_size g _ _, c.write_length g _ _⟩

lemma TextCanvas.fillCell_foreign (g : String) (c : TextCanvas) (x y : Int)
    (px py : Nat) (hne : ¬ (x = (px : Int) ∧ y = (py : Int))) :
    (TextCanvas.fillCell g c x y).get_at px py = c.get_at px py := by
  unfold TextCanvas.fillCell
  split
  · rfl
  · rename_i hin
    push_neg at hin
    apply c.get_at_write_ne
    intro hpair
    rw [Prod.mk.injEq] at hpair
    exact hne ⟨by omega, by omega⟩

lemma TextCanvas.fillCol_size_length (g : String) (by0 : Int) (bh : Nat)
    (c : TextCanvas) (x : Int) :
    (TextCanvas.fillCol g by0 bh c x).size = c.size ∧
    (TextCanvas.fillCol g by0 bh c x).contents.length =
      c.contents.length := by
  unfold TextCanvas.fillCol
  apply foldl_size_length
  intro b a
  exact TextCanvas.fillCell_size_length g b x a

lemma TextCanvas.fillCol_foreign (g : String) (by0 : Int) (px py : Nat)
    (x : Int) (hxne : x ≠ (px : Int)) :
    ∀ (bh : Nat) (c : TextCanvas),
    (TextCanvas.fillCol g by0 bh c x).get_at px py = c.get_at px py := by
  intro bh
  induction bh with
  | zero => intro c; rfl
  | succ n ih =>
      intro c
      unfold TextCanvas.fillCol
      rw [intRange_succ, List.foldl_append]
      simp only [List.foldl_cons, List.foldl_nil]
      rw [TextCanvas.fillCell_foreign g _ x (by0 + n) px py
        (by intro hpair; exact hxne hpair.1)]
      exact ih c

lemma TextCanvas.fillCol_sets (g : String) (by0 : Int) (px py : Nat) :
    ∀ (bh : Nat) (c : TextCanvas), c.Inv →
    px < c.size.width → py < c.size.height →
    by0 ≤ (py : Int) → (py : Int) < by0 + bh →
    (TextCanvas.fillCol g by0 bh c ((px : Nat) : Int)).get_at px py =
      some g := by
  intro bh
  induction bh with
  | zero => intro c _ _ _ h1 h2; omega
  | succ n ih =>
      intro c hInv hpx hpy hy1 hy2
      unfold TextCanvas.fillCol
      rw [intRange_succ, List.foldl_append]
      simp only [List.foldl_cons, List.foldl_nil]
      rw [show (intRange by0 n).foldl
          (fun c2 y => TextCanvas.fillCell g c2 ((px : Nat) : Int) y) c =
          TextCanvas.fillCol g by0 n c ((px : Nat) : Int) from rfl]
      obtain ⟨hsz, hlen⟩ := TextCanvas.fillCol_size_length g by0 n c
        ((px : Nat) : Int)
      by_cases heq : (py : Int) = by0 + n
      · -- the final row coincides with the target row
        unfold TextCanvas.fillCell
        rw [if_neg (by rw [hsz]; omega)]
        rw [show ((px : Nat) : Int).toNat = px from by omega,
          show (by0 + (n : Int)).toNat = py from by omega]
        apply TextCanvas.get_at_write_self
        · unfold TextCanvas.Inv
          rw [hsz, hlen]
          exact hInv
        · rw [hsz]; exact hpx
        · rw [hsz]; exact hpy
      · -- the target row is strictly inside the prefix
        rw [TextCanvas.fillCell_foreign g _ _ (by0 + n) px py
          (by intro hpair; omega)]
        exact ih c hInv hpx hpy hy1 (by omega)

lemma TextCanvas.fillFold_sets (g : String) (bx0 by0 : Int) (bh : Nat)
    (px py : Nat) (hy1 : by0 ≤ (py : Int)) (hy2 : (py : Int) < by0 + bh) :
    ∀ (n : Nat) (c : TextCanvas), c.Inv →
    px < c.size.width → py < c.size.height →
    bx0 ≤ (px : Int) → (px : Int) < bx0 + n →
    ((intRange bx0 n).foldl (TextCanvas.fillCol g by0 bh) c).get_at px py =
      some g := by
  intro n
  induction n with
  | zero => intro c _ _ _ h1 h2; omega
  | succ n ih =>
      intro c hInv hpx hpy hx1 hx2
      rw [intRange_succ, List.foldl_append]
      simp only [List.foldl_cons, List.foldl_nil]
      obtain ⟨hsz, hlen⟩ := foldl_size_length
        (TextCanvas.fillCol g by0 bh)
        (fun b a => TextCanvas.fillCol_size_length g by0 bh b a)
        (intRange bx0 n) c
      by_cases hcol : (px : Int) = bx0 + n
      · rw [show bx0 + (n : Int) = ((px : Nat) : Int) from hcol.symm]
        apply TextCanvas.fillCol_sets g by0 px py bh _ ?_ ?_ ?_ hy1 hy2
        · unfold TextCanvas.Inv
          rw [hsz, hlen]
          exact hInv
        · rw [hsz]; exact hpx
        · rw [hsz]; exact hpy
      · rw [TextCanvas.fillCol_foreign g by0 px py (bx0 + n)
          (by omega) bh _]
        exact ih c hInv hpx hpy hx1 (by omega)

/-- `draw_rect` sets every surface cell inside the filled rectangle. -/
lemma TextCanvas.draw_rect_covers (c : TextCanvas) (bounds : Rect)
    (g : String) (px py : Nat) (hInv : c.Inv)
    (hpx : px < c.size.width) (hpy : py < c.size.height)
    (hx1 : bounds.x ≤ (px : Int))
    (hx2 : (px : Int) < bounds.x + bounds.width)
    (hy1 : bounds.y ≤ (py : Int))
    (hy2 : (py : Int) < bounds.y + bounds.height) :
    (c.draw_rect bounds g).get_at px py = some g := by
  unfold TextCanvas.draw_rect
  exact TextCanvas.fillFold_sets g bounds.x bounds.y bounds.height px py
    hy1 hy2 bounds.width c hInv hpx hpy hx1 hx2

/-- C7: executing the draw sequence of `Background(bg, Text(content))` —
a background fill of the bounds followed by the text arm over the child
frame — every traced grapheme equal to the space marker leaves its surface
cell showing the background fill (nothing is written there, the cursor
just advances), while every non-space grapheme overwrites its cell. -/
theorem c7_background_text_transparency
    (c : TextCanvas) (bounds : Rect) (bg : String)
    (childSizing : ItemSizing) (content : List String)
    (g : String) (px py : Nat)
    (hmem : (g, px, py) ∈ textTrace (usizeCast bounds.x)
      ({ childSizing.fit_into bounds with
          x := bounds.x, y := bounds.y } : Rect).width
      (usizeCast bounds.x) (usizeCast bounds.y) content)
    (hInv : c.Inv)
    (hpx : px < c.size.width) (hpy : py < c.size.height)
    (hx1 : bounds.x ≤ (px : Int))
    (hx2 : (px : Int) < bounds.x + bounds.width)
    (hy1 : bounds.y ≤ (py : Int))
    (hy2 : (py : Int) < bounds.y + bounds.height) :
    (g = " " →
      (c.renderBackgroundText bounds bg childSizing content).get_at px py =
        some bg) ∧
    (g ≠ " " →
      (c.renderBackgroundText bounds bg childSizing content).get_at px py =
        some g) := by
  obtain ⟨hsz, hlen⟩ := c.draw_rect_size_length bounds bg
  have hdInv : (c.draw_rect bounds bg).Inv := by
    unfold TextCanvas.Inv
    rw [hsz, hlen]
    exact hInv
  have hfill : (c.draw_rect bounds bg).get_at px py = some bg :=
    c.draw_rect_covers bounds bg px py hInv hpx hpy hx1 hx2 hy1 hy2
  have hres := TextCanvas.renderTextLoop_trace (usizeCast bounds.x)
    ({ childSizing.fit_into bounds with
        x := bounds.x, y := bounds.y } : Rect).width
    content (c.draw_rect bounds bg) (usizeCast bounds.x)
    (usizeCast bounds.y) g px py hmem hdInv (hsz ▸ hpx) (hsz ▸ hpy)
  unfold TextCanvas.renderBackgroundText TextCanvas.renderTextArm
  exact ⟨fun hsp => (hres.1 hsp).trans hfill, hres.2⟩

/-- C7 witness: rendering `Background('.', Text("a b"))` on a 4×2 surface,
the space grapheme at column 1 shows the background fill and the `"b"` at
column 2 is written. -/
theorem c7_background_text_transparency_witness :
    ((TextCanvas.create 4 2).renderBackgroundText ⟨0, 0, 4, 2⟩ "."
      ⟨Sizing.Static 3, Sizing.Static 1⟩ ["a", " ", "b"]).get_at 1 0 =
        some "." ∧
    ((TextCanvas.create 4 2).renderBackgroundText ⟨0, 0, 4, 2⟩ "."
      ⟨Sizing.Static 3, Sizing.Static 1⟩ ["a", " ", "b"]).get_at 2 0 =
        some "b" := by
  constructor
  · exact (c7_background_text_transparency (TextCanvas.create 4 2)
      ⟨0, 0, 4, 2⟩ "." ⟨Sizing.Static 3, Sizing.Static 1⟩ ["a", " ", "b"]
      " " 1 0 (by decide) (by decide) (by decide) (by decide) (by decide)
      (by decide) (by decide) (by decide)).1 rfl
  · exact (c7_background_text_transparency (TextCanvas.create 4 2)
      ⟨0, 0, 4, 2⟩ "." ⟨Sizing.Static 3, Sizing.Static 1⟩ ["a", " ", "b"]
      "b" 2 0 (by decide) (by decide) (by decide) (by decide) (by decide)
      (by decide) (by decide) (by decide)).2 (by decide)


/-!
The declarative `Layout` tree and `Layout::resolve_size` from
`src/layout/mod.rs`.  Differences of representation (not of behaviour):
the `Ctx` type parameter is dropped together with the two callback nodes
`WithContext` (replaced in place by a host callback, unused by the claims)
and `DrawCanvas`'s payload (`resolve_size` never looks at it); `Text`
content is stored pre-split into lines of grapheme clusters (unicode
segmentation is an external crate); the `HashSet<Edge>` of `Border` is a
four-flag set.  `SizedLayout` is the pair of a `SizedNode` and its
`ItemSizing`.
-/

/-- `Edge` set from `src/layout/alignment.rs` (`HashSet<Edge>`). -/
structure EdgeSet where
  top : Bool
  right : Bool
  bottom : Bool
  left : Bool
  deriving Repr, DecidableEq

/-- `HorizontalAlignment` from `src/layout/alignment.rs`. -/
inductive HorizontalAlignment where
  | Left
  | Center
  | Right
  deriving Repr, DecidableEq

/-- `VerticalAlignment` from `src/layout/alignment.rs`. -/
inductive VerticalAlignment where
  | Top
  | Center
  | Bottom
  deriving Repr, DecidableEq

/-- `Layout` from `src/layout/mod.rs`. -/
inductive Layout where
  | Text (lines : List (List String))
  | Width (n : Nat) (child : Layout)
  | Height (n : Nat) (child : Layout)
  | TopPadding (n : Nat) (child : Layout)
  | RightPadding (n : Nat) (child : Layout)
  | BottomPadding (n : Nat) (child : Layout)
  | LeftPadding (n : Nat) (child : Layout)
  | VCenter (child : Layout)
  | HCenter (child : Layout)
  | VBottomAlign (child : Layout)
  | HRightAlign (child : Layout)
  | VTopAlign (child : Layout)
  | HLeftAlign (child : Layout)
  | Background (c : Char) (child : Layout)
  | Border (n : Nat) (c : Char) (edges : EdgeSet) (child : Layout)
  | VerticalStack (alignment : HorizontalAlignment) (spacing : Nat)
      (children : List Layout)
  | HorizontalStack (alignment : VerticalAlignment) (spacing : Nat)
      (children : List Layout)
  | DrawCanvas

/-- `SizedNode` from `src/layout/mod.rs`; children are `SizedLayout`
pairs (node, sizing). -/
inductive SizedNode where
  | Text (lines : List (List String))
  | Width (n : Nat) (child : SizedNode × ItemSizing)
  | Height (n : Nat) (child : SizedNode × ItemSizing)
  | TopPadding (n : Nat) (child : SizedNode × ItemSizing)
  | RightPadding (n : Nat) (child : SizedNode × ItemSizing)
  | BottomPadding (n : Nat) (child : SizedNode × ItemSizing)
  | LeftPadding (n : Nat) (child : SizedNode × ItemSizing)
  | VCenter (child : SizedNode × ItemSizing)
  | HCenter (child : SizedNode × ItemSizing)
  | VBottomAlign (child : SizedNode × ItemSizing)
  | HRightAlign (child : SizedNode × ItemSizing)
  | VTopAlign (child : SizedNode × ItemSizing)
  | HLeftAlign (child : SizedNode × ItemSizing)
  | Background (c : Char) (child : SizedNode × ItemSizing)
  | Border (n : Nat) (c : Char) (edges : EdgeSet)
      (child : SizedNode × ItemSizing)
  | VerticalStack (alignment : HorizontalAlignment) (spacing : Nat)
      (children : List (SizedNode × ItemSizing))
  | HorizontalStack (alignment : VerticalAlignment) (spacing : Nat)
      (children : List (SizedNode × ItemSizing))
  | DrawCanvas

/-- `SizedLayout { node, sizing }`. -/
def SizedLayout : Type := SizedNode × ItemSizing

/-- `Layout::calculate_line_size`: `rows = ceil(len / width)` through
`f64` (exact for all realisable lengths; `width = 0` gives `NaN as usize
= 0` for an empty line and `inf as usize = usize::MAX` otherwise). -/
def calculate_line_size (len boundsWidth : Nat) : Size :=
  let rows :=
    if boundsWidth = 0 then (if len = 0 then 0 else USIZE_MAX)
    else (len + boundsWidth - 1) / boundsWidth
  if rows < 2 then ⟨len, 1⟩ else ⟨boundsWidth, rows⟩

mutual

/-- `Layout::resolve_size`.  `none` models a panic: the only panicking
operations are the two plain `-=` subtractions in the stack arms
(`checkedSub`); every other subtraction in the source is
`checked_sub(..).unwrap_or(0)`/`saturating_sub`, i.e. truncated.  Note the
`HLeftAlign` arm builds a `SizedNode.HRightAlign` — this is the source,
transcribed as-is. -/
def Layout.resolve_size : Layout → Rect → Option SizedLayout
  | .Text lines, bounds =>
      let wh := lines.foldl
        (fun (acc : Nat × Nat) line =>
          let sz := calculate_line_size line.length bounds.width
          (if sz.width > acc.1 then sz.width else acc.1, acc.2 + sz.height))
        (0, 0)
      some (.Text lines, ⟨.Static wh.1, .Static wh.2⟩)
  | .VCenter child, bounds =>
      (child.resolve_size bounds).map fun r =>
        (.VCenter r, ⟨r.2.horizontal, .Greedy r.2.vertical.min_content_size⟩)
  | .VBottomAlign child, bounds =>
      (child.resolve_size bounds).map fun r =>
        (.VBottomAlign r,
          ⟨r.2.horizontal, .Greedy r.2.vertical.min_content_size⟩)
  | .HCenter child, bounds =>
      (child.resolve_size bounds).map fun r =>
        (.HCenter r, ⟨.Greedy r.2.horizontal.min_content_size, r.2.vertical⟩)
  | .HRightAlign child, bounds =>
      (child.resolve_size bounds).map fun r =>
        (.HRightAlign r,
          ⟨.Greedy r.2.horizontal.min_content_size, r.2.vertical⟩)
  | .VTopAlign child, bounds =>
      (child.resolve_size bounds).map fun r =>
        (.VTopAlign r, ⟨r.2.horizontal, .Greedy r.2.vertical.min_content_size⟩)
  | .HLeftAlign child, bounds =>
      (child.resolve_size bounds).map fun r =>
        (.HRightAlign r,
          ⟨.Greedy r.2.horizontal.min_content_size, r.2.vertical⟩)
  | .Width size child, bounds =>
      (child.resolve_size { bounds with width := size }).map fun r =>
        (.Width size r, { r.2 with horizontal := .Static size })
  | .Height size child, bounds =>
      (child.resolve_size { bounds with height := size }).map fun r =>
        (.Height size r, { r.2 with vertical := .Static size })
  | .TopPadding n child, bounds =>
      (child.resolve_size bounds).bind fun resolved =>
        let frame :=
          { resolved.2 with vertical := resolved.2.vertical.clamped_add n }
        if frame.vertical.min_content_size > bounds.height then
          (child.resolve_size
            { bounds with height := bounds.height - n }).map fun rc =>
            (.TopPadding n rc,
              { rc.2 with vertical := rc.2.vertical.clamped_add n })
        else
          some (.TopPadding n resolved, frame)
  | .BottomPadding n child, bounds =>
      (child.resolve_size bounds).bind fun resolved =>
        let frame :=
          { resolved.2 with vertical := resolved.2.vertical.clamped_add n }
        if frame.vertical.min_content_size > bounds.height then
          (child.resolve_size
            { bounds with height := bounds.height - n }).map fun rc =>
            (.BottomPadding n rc,
              { rc.2 with vertical := rc.2.vertical.clamped_add n })
        else
          some (.BottomPadding n resolved, frame)
  | .LeftPadding n child, bounds =>
      (child.resolve_size bounds).bind fun resolved =>
        let frame :=
          { resolved.2 with horizontal := resolved.2.horizontal.clamped_add n }
        if frame.horizontal.min_content_size > bounds.width then
          (child.resolve_size
            { bounds with width := bounds.width - n }).map fun rc =>
            (.LeftPadding n rc,
              { rc.2 with horizontal := rc.2.horizontal.clamped_add n })
        else
          some (.LeftPadding n resolved, frame)
  | .RightPadding n child, bounds =>
      (child.resolve_size bounds).bind fun resolved =>
        let frame :=
          { resolved.2 with horizontal := resolved.2.horizontal.clamped_add n }
        if frame.horizontal.min_content_size > bounds.width then
          (child.resolve_size
            { bounds with width := bounds.width - n }).map fun rc =>
            (.RightPadding n rc,
              { rc.2 with horizontal := rc.2.horizontal.clamped_add n })
        else
          some (.RightPadding n resolved, frame)
  | .Background c child, bounds =>
      (child.resolve_size bounds).map fun r => (.Background c r, r.2)
  | .Border n c edges child, bounds =>
      (child.resolve_size bounds).bind fun resolved0 =>
        let v1 :=
          if edges.top then resolved0.2.vertical.clamped_add n
          else resolved0.2.vertical
        let v2 := if edges.bottom then v1.clamped_add n else v1
        let frameA := { resolved0.2 with vertical := v2 }
        (if frameA.vertical.min_content_size > bounds.height then
          (child.resolve_size
            { bounds with height := bounds.height - n }).map fun rc =>
            (rc, { rc.2 with vertical := rc.2.vertical.clamped_add n })
         else some (resolved0, frameA)).bind fun rb =>
          let h1 :=
            if edges.left then rb.2.horizontal.clamped_add n
            else rb.2.horizontal
          let h2 := if edges.right then h1.clamped_add n else h1
          let frameC := { rb.2 with horizontal := h2 }
          (if frameC.horizontal.min_content_size > bounds.width then
            (child.resolve_size
              { bounds with width := bounds.width - n }).map fun rc =>
              (rc, { rc.2 with horizontal := rc.2.horizontal.clamped_add n })
           else some (rb.1, frameC)).map fun re =>
            (.Border n c edges re.1, re.2)
  | .VerticalStack alignment spacing children, bounds =>
      let spacingSizing := spacing * (children.length - 1)
      (checkedSub bounds.height spacingSizing).bind fun newHeight =>
        (Layout.resolveChildren children
          { bounds with height := newHeight }).map fun resolved =>
          let result := resolved.foldl
            (fun (acc : ItemSizing) r =>
              { horizontal :=
                  match acc.horizontal with
                  | .Static j =>
                      match r.2.horizontal with
                      | .Static i => .Static (max i j)
                      | .Greedy i => .Greedy (max i j)
                  | .Greedy j => .Greedy (max r.2.horizontal.min_content_size j)
                vertical := acc.vertical.clamped_accumulate r.2.vertical })
            ⟨.Static 0, .Static spacingSizing⟩
          (.VerticalStack alignment spacing resolved, result)
  | .HorizontalStack alignment spacing children, bounds =>
      let spacingSizing := spacing * (children.length - 1)
      (checkedSub bounds.width spacingSizing).bind fun newWidth =>
        (Layout.resolveChildren children
          { bounds with width := newWidth }).map fun resolved =>
          let result := resolved.foldl
            (fun (acc : ItemSizing) r =>
              { horizontal := acc.horizontal.clamped_accumulate r.2.horizontal
                vertical :=
                  match acc.vertical with
                  | .Static j =>
                      match r.2.vertical with
                      | .Static i => .Static (max i j)
                      | .Greedy i => .Greedy (max i j)
                  | .Greedy j => .Greedy (max r.2.vertical.min_content_size j) })
            ⟨.Static spacingSizing, .Static 0⟩
          (.HorizontalStack alignment spacing resolved, result)
  | .DrawCanvas, _ =>
      some (.DrawCanvas, ⟨.Greedy 1, .Greedy 1⟩)

/-- The per-child resolution loop of the two stack arms. -/
def Layout.resolveChildren : List Layout → Rect → Option (List SizedLayout)
  | [], _ => some []
  | c :: cs, bounds =>
      (c.resolve_size bounds).bind fun r =>
        (Layout.resolveChildren cs bounds).map fun rs => r :: rs

end


/-!
Child-frame computations of the positioning pass.  The four padding arms
and the `HRightAlign` arm compute the child rectangle identically in
`TextCanvas::render` (`src/canvas.rs` lines 146–200) and
`SizedLayout::resolve_draw_commands` (`src/rendering/mod.rs` lines
56–110); they are embedded once.
-/

/-- TopPadding arm: shrink the bounds by `n` (saturating), `fit_into`,
then shift the frame down by `n`. -/
def topPaddingChildFrame (childSizing : ItemSizing) (n : Nat)
    (bounds : Rect) : Rect :=
  let b := { bounds with height := bounds.height - n }
  let frame := childSizing.fit_into b
  { frame with x := b.x, y := b.y + Int.ofNat n }

/-- BottomPadding arm: shrink the bounds by `n` (saturating), `fit_into`,
frame anchored at the bounds' origin. -/
def bottomPaddingChildFrame (childSizing : ItemSizing) (n : Nat)
    (bounds : Rect) : Rect :=
  let b := { bounds with height := bounds.height - n }
  let frame := childSizing.fit_into b
  { frame with x := b.x, y := b.y }

/-- LeftPadding arm: shrink the bounds by `n` (saturating), `fit_into`,
then shift the frame right by `n`. -/
def leftPaddingChildFrame (childSizing : ItemSizing) (n : Nat)
    (bounds : Rect) : Rect :=
  let b := { bounds with width := bounds.width - n }
  let frame := childSizing.fit_into b
  { frame with x := b.x + Int.ofNat n, y := b.y }

/-- RightPadding arm: `fit_into` the full bounds, then shave off whatever
exceeds `bounds.width - n` (all subtractions saturating). -/
def rightPaddingChildFrame (childSizing : ItemSizing) (n : Nat)
    (bounds : Rect) : Rect :=
  let frame := childSizing.fit_into bounds
  let freeWidth := bounds.width - n
  let adjustment := frame.width - freeWidth
  { frame with
      x := bounds.x
      y := bounds.y
      width := frame.width - adjustment }

/-- HRightAlign arm: the child keeps its fitted size and its left edge is
placed at `bounds.x + bounds.width - content.width`. -/
def hRightAlignChildRect (sizing : ItemSizing) (bounds : Rect) : Rect :=
  let contentRect := sizing.fit_into bounds
  let rightMost := usizeCast bounds.x + bounds.width
  let leftStart := rightMost - contentRect.width
  { contentRect with x := Int.ofNat leftStart }

/-- C4: the claimed saturation is absent from the cited code.  In
`Layout::resolve_size` both stack arms subtract the total inter-item
spacing with a plain `-=` (`src/layout/mod.rs` lines 300 and 326), and the
VerticalStack arm of `resolve_draw_commands` subtracts the accumulated
static extent with a plain `-` (`src/rendering/mod.rs` line 200): when the
subtrahend exceeds the bound these panic in a debug build (wrap in
release) instead of saturating to zero — modelled as `none`.  Only the
HorizontalStack positioning arm (line 294) actually saturates, as the
final conjunct shows. -/
theorem c4_stack_subtraction_not_saturating :
    Layout.resolve_size (.VerticalStack .Left 5
      [.VerticalStack .Left 0 [], .VerticalStack .Left 0 []])
      ⟨0, 0, 10, 3⟩ = none ∧
    Layout.resolve_size (.HorizontalStack .Top 5
      [.VerticalStack .Left 0 [], .VerticalStack .Left 0 []])
      ⟨0, 0, 3, 10⟩ = none ∧
    vstackNewSizings 0 [Sizing.Static 4] 3 = none ∧
    hstackNewSizings 0 [Sizing.Static 4] 3 = some [Sizing.Static 4] := by
  exact ⟨rfl, rfl, rfl, rfl⟩

/-- C5: `Layout::resolve_size`'s `HLeftAlign` arm wraps the resolved child
in `SizedNode::HRightAlign` (`src/layout/mod.rs` line 166, and identically
in the continuous copy), contradicting the node's documented "aligned to
the left" semantics.  The child's size is unchanged and the wrapper's
horizontal sizing is `Greedy(child minimum)` as claimed, but since no
`SizedNode::HLeftAlign` is ever produced, placement runs the HRightAlign
arm: for a width-2 child in bounds `x = 0, width = 10` the child rectangle
starts at `x = 8`, the right edge, not at the bounds' x origin. -/
theorem c5_hleftalign_resolves_to_right_align :
    Layout.resolve_size (.HLeftAlign (.Width 2 (.VerticalStack .Left 0 [])))
      ⟨0, 0, 10, 1⟩ =
      some (.HRightAlign ((.Width 2 ((.VerticalStack .Left 0 []),
        ⟨.Static 0, .Static 0⟩)), ⟨.Static 2, .Static 0⟩),
        ⟨.Greedy 2, .Static 0⟩) ∧
    (hRightAlignChildRect ⟨.Static 2, .Static 0⟩ ⟨0, 0, 10, 1⟩).x = 8 ∧
    (8 : Int) ≠ (0 : Int) := by
  exact ⟨rfl, rfl, by decide⟩


lemma Sizing.clamped_add_static (c n : Nat) (h : c + n ≤ USIZE_MAX) :
    (Sizing.Static c).clamped_add n = .Static (c + n) := by
  simp [Sizing.clamped_add, h]

/-- Unfolding of the TopPadding arm of `resolve_size`. -/
lemma resolve_topPadding (n : Nat) (child : Layout) (bounds : Rect) :
    Layout.resolve_size (.TopPadding n child) bounds =
      (child.resolve_size bounds).bind fun resolved =>
        if (resolved.2.vertical.clamped_add n).min_content_size >
            bounds.height then
          (child.resolve_size
            { bounds with height := bounds.height - n }).map fun rc =>
            (.TopPadding n rc,
              { rc.2 with vertical := rc.2.vertical.clamped_add n })
        else
          some (.TopPadding n resolved,
            { resolved.2 with
                vertical := resolved.2.vertical.clamped_add n }) := rfl

/-- Unfolding of the BottomPadding arm of `resolve_size`. -/
lemma resolve_bottomPadding (n : Nat) (child : Layout) (bounds : Rect) :
    Layout.resolve_size (.BottomPadding n child) bounds =
      (child.resolve_size bounds).bind fun resolved =>
        if (resolved.2.vertical.clamped_add n).min_content_size >
            bounds.height then
          (child.resolve_size
            { bounds with height := bounds.height - n }).map fun rc =>
            (.BottomPadding n rc,
              { rc.2 with vertical := rc.2.vertical.clamped_add n })
        else
          some (.BottomPadding n resolved,
            { resolved.2 with
                vertical := resolved.2.vertical.clamped_add n }) := rfl

/-- Unfolding of the LeftPadding arm of `resolve_size`. -/
lemma resolve_leftPadding (n : Nat) (child : Layout) (bounds : Rect) :
    Layout.resolve_size (.LeftPadding n child) bounds =
      (child.resolve_size bounds).bind fun resolved =>
        if (resolved.2.horizontal.clamped_add n).min_content_size >
            bounds.width then
          (child.resolve_size
            { bounds with width := bounds.width - n }).map fun rc =>
            (.LeftPadding n rc,
              { rc.2 with horizontal := rc.2.horizontal.clamped_add n })
        else
          some (.LeftPadding n resolved,
            { resolved.2 with
                horizontal := resolved.2.horizontal.clamped_add n }) := rfl

/-- Unfolding of the RightPadding arm of `resolve_size`. -/
lemma resolve_rightPadding (n : Nat) (child : Layout) (bounds : Rect) :
    Layout.resolve_size (.RightPadding n child) bounds =
      (child.resolve_size bounds).bind fun resolved =>
        if (resolved.2.horizontal.clamped_add n).min_content_size >
            bounds.width then
          (child.resolve_size
            { bounds with width := bounds.width - n }).map fun rc =>
            (.RightPadding n rc,
              { rc.2 with horizontal := rc.2.horizontal.clamped_add n })
        else
          some (.RightPadding n resolved,
            { resolved.2 with
                horizontal := resolved.2.horizontal.clamped_add n }) := rfl

/-- C2: for a padding node with amount `n` over a child whose resolved
sizing on the padded axis is `Static c` (the claim's "intrinsic size"),
with bound `b` on that axis: if `c + n ≤ b` the child is kept from its
single optimistic resolution, the wrapper's axis sizing becomes
`Static (c + n)`, and the positioning frame gives the child exactly `c`
with `n` units left empty on the padded side; if `c + n > b` the result is
built from exactly one re-resolution of the child against the reduced
bound `b - n` (saturating, so clamped to 0 when `n ≥ b`) — the returned
equation contains a single further `resolve_size` call unconditionally, so
the re-resolution happens at most once per padding node per frame.  The
`c + n ≤ USIZE_MAX` hypothesis keeps `clamped_add` exact. -/
theorem c2_padding_resolution (child : Layout) (bounds : Rect) (n : Nat)
    (r : SizedLayout) (hres : child.resolve_size bounds = some r) :
    (∀ c, r.2.vertical = .Static c → c + n ≤ USIZE_MAX →
      ((c + n ≤ bounds.height →
        Layout.resolve_size (.TopPadding n child) bounds =
          some (.TopPadding n r,
            { r.2 with vertical := .Static (c + n) }) ∧
        Layout.resolve_size (.BottomPadding n child) bounds =
          some (.BottomPadding n r,
            { r.2 with vertical := .Static (c + n) }) ∧
        (topPaddingChildFrame r.2 n bounds).height = c ∧
        (topPaddingChildFrame r.2 n bounds).y = bounds.y + Int.ofNat n ∧
        (bottomPaddingChildFrame r.2 n bounds).height = c ∧
        (bottomPaddingChildFrame r.2 n bounds).y = bounds.y ∧
        (bottomPaddingChildFrame r.2 n bounds).y +
          ((bottomPaddingChildFrame r.2 n bounds).height : Int) +
          (n : Int) ≤ bounds.max_y) ∧
       (bounds.height < c + n →
        Layout.resolve_size (.TopPadding n child) bounds =
          (child.resolve_size
            { bounds with height := bounds.height - n }).map
            (fun rc => (.TopPadding n rc,
              { rc.2 with vertical := rc.2.vertical.clamped_add n })) ∧
        Layout.resolve_size (.BottomPadding n child) bounds =
          (child.resolve_size
            { bounds with height := bounds.height - n }).map
            (fun rc => (.BottomPadding n rc,
              { rc.2 with vertical := rc.2.vertical.clamped_add n }))))) ∧
    (∀ c, r.2.horizontal = .Static c → c + n ≤ USIZE_MAX →
      ((c + n ≤ bounds.width →
        Layout.resolve_size (.LeftPadding n child) bounds =
          some (.LeftPadding n r,
            { r.2 with horizontal := .Static (c + n) }) ∧
        Layout.resolve_size (.RightPadding n child) bounds =
          some (.RightPadding n r,
            { r.2 with horizontal := .Static (c + n) }) ∧
        (leftPaddingChildFrame r.2 n bounds).width = c ∧
        (leftPaddingChildFrame r.2 n bounds).x = bounds.x + Int.ofNat n ∧
        (rightPaddingChildFrame r.2 n bounds).width = c ∧
        (rightPaddingChildFrame r.2 n bounds).x = bounds.x ∧
        (rightPaddingChildFrame r.2 n bounds).x +
          ((rightPaddingChildFrame r.2 n bounds).width : Int) +
          (n : Int) ≤ bounds.max_x) ∧
       (bounds.width < c + n →
        Layout.resolve_size (.LeftPadding n child) bounds =
          (child.resolve_size
            { bounds with width := bounds.width - n }).map
            (fun rc => (.LeftPadding n rc,
              { rc.2 with horizontal := rc.2.horizontal.clamped_add n })) ∧
        Layout.resolve_size (.RightPadding n child) bounds =
          (child.resolve_size
            { bounds with width := bounds.width - n }).map
            (fun rc => (.RightPadding n rc,
              { rc.2 with horizontal := rc.2.horizontal.clamped_add n }))))) := by
  constructor
  · intro c hv hMAX
    constructor
    · intro hfits
      have hcond : ¬ ((r.2.vertical.clamped_add n).min_content_size >
          bounds.height) := by
        rw [hv, Sizing.clamped_add_static c n hMAX]
        simp only [Sizing.min_content_size]
        omega
      refine ⟨?_, ?_, ?_, ?_, ?_, ?_, ?_⟩
      · rw [resolve_topPadding, hres, Option.some_bind, if_neg hcond, hv,
          Sizing.clamped_add_static c n hMAX]
      · rw [resolve_bottomPadding, hres, Option.some_bind, if_neg hcond, hv,
          Sizing.clamped_add_static c n hMAX]
      · simp [topPaddingChildFrame, ItemSizing.fit_into, hv]
      · simp [topPaddingChildFrame, ItemSizing.fit_into]
      · simp [bottomPaddingChildFrame, ItemSizing.fit_into, hv]
      · simp [bottomPaddingChildFrame, ItemSizing.fit_into]
      · simp only [bottomPaddingChildFrame, ItemSizing.fit_into, hv,
          Rect.max_y]
        omega
    · intro hover
      have hcond : (r.2.vertical.clamped_add n).min_content_size >
          bounds.height := by
        rw [hv, Sizing.clamped_add_static c n hMAX]
        simp only [Sizing.min_content_size]
        omega
      exact ⟨by rw [resolve_topPadding, hres, Option.some_bind, if_pos hcond],
        by rw [resolve_bottomPadding, hres, Option.some_bind, if_pos hcond]⟩
  · intro c hh hMAX
    constructor
    · intro hfits
      have hcond : ¬ ((r.2.horizontal.clamped_add n).min_content_size >
          bounds.width) := by
        rw [hh, Sizing.clamped_add_static c n hMAX]
        simp only [Sizing.min_content_size]
        omega
      refine ⟨?_, ?_, ?_, ?_, ?_, ?_, ?_⟩
      · rw [resolve_leftPadding, hres, Option.some_bind, if_neg hcond, hh,
          Sizing.clamped_add_static c n hMAX]
      · rw [resolve_rightPadding, hres, Option.some_bind, if_neg hcond, hh,
          Sizing.clamped_add_static c n hMAX]
      · simp [leftPaddingChildFrame, ItemSizing.fit_into, hh]
      · simp [leftPaddingChildFrame, ItemSizing.fit_into]
      · simp only [rightPaddingChildFrame, ItemSizing.fit_into, hh]
        omega
      · simp [rightPaddingChildFrame, ItemSizing.fit_into]
      · simp only [rightPaddingChildFrame, ItemSizing.fit_into, hh,
          Rect.max_x]
        omega
    · intro hover
      have hcond : (r.2.horizontal.clamped_add n).min_content_size >
          bounds.width := by
        rw [hh, Sizing.clamped_add_static c n hMAX]
        simp only [Sizing.min_content_size]
        omega
      exact ⟨by rw [resolve_leftPadding, hres, Option.some_bind, if_pos hcond],
        by rw [resolve_rightPadding, hres, Option.some_bind, if_pos hcond]⟩

/-- C2 witness: a `Static`-sized child (`Text []`, sizing `0×0`) under
padding 2 in a 5×4 bound fits and keeps its single resolution with offset
2, while padding 7 exceeds the width and re-resolves against the
saturated reduced bound `5 - 7 = 0`. -/
theorem c2_padding_resolution_witness :
    Layout.resolve_size (.TopPadding 2 (.Text [])) ⟨0, 0, 5, 4⟩ =
      some (.TopPadding 2 ((.Text []), ⟨.Static 0, .Static 0⟩),
        ⟨.Static 0, .Static 2⟩) ∧
    (topPaddingChildFrame ⟨.Static 0, .Static 0⟩ 2 ⟨0, 0, 5, 4⟩).y =
      (0 : Int) + Int.ofNat 2 ∧
    Layout.resolve_size (.LeftPadding 2 (.Text [])) ⟨0, 0, 5, 4⟩ =
      some (.LeftPadding 2 ((.Text []), ⟨.Static 0, .Static 0⟩),
        ⟨.Static 2, .Static 0⟩) ∧
    Layout.resolve_size (.LeftPadding 7 (.Text [])) ⟨0, 0, 5, 4⟩ =
      (Layout.resolve_size (.Text [])
        { Rect.mk 0 0 5 4 with width := 5 - 7 }).map
        (fun rc => (.LeftPadding 7 rc,
          { rc.2 with horizontal := rc.2.horizontal.clamped_add 7 })) := by
  have h := c2_padding_resolution (.Text []) ⟨0, 0, 5, 4⟩ 2
    ((.Text []), ⟨.Static 0, .Static 0⟩) rfl
  have h7 := c2_padding_resolution (.Text []) ⟨0, 0, 5, 4⟩ 7
    ((.Text []), ⟨.Static 0, .Static 0⟩) rfl
  have hv := (h.1 0 rfl (by decide)).1 (by decide)
  have hh := (h.2 0 rfl (by decide)).1 (by decide)
  have hh7 := (h7.2 0 rfl (by decide)).2 (by decide)
  exact ⟨hv.1, hv.2.2.2.1, hh.1, hh7.1⟩

end Textyle
